import Mathlib

/-!
Verification of the api-extractor graph-construction core of web-build-tools.

The development shallowly embeds the TypeScript sources:
* `AstSymbolTable` (src/unnamed/part_001): `_fetchAstSymbol`, `tryGetAstSymbol`,
  `analyze`, `_analyzeChildTree`, `_fetchAstDeclaration`, `_fetchAstSymbolForNode`,
  `_tryFindFirstAstDeclarationParent`;
* `Excerpt` / `ExcerptToken` (src/unnamed/part_000);
* `ApiMethod.getCanonicalReference` (src/apps/api-extractor/src/api/model/ApiMethod.ts);
* `Extractor.processProject`, `Extractor.generateFilePathsForAnalysis`
  (src/apps/api-extractor/src/api/Extractor.ts).

TypeScript objects reached through the semantic provider (`ts.Symbol`, `ts.Node`,
the type checker) are represented by numeric identities living in a read-only
environment `Env`; the mutable symbol-table state is an explicit `TableState`.
Exceptions are modelled with `Except String`.  Loops whose termination in the
source rests on the finiteness of the TypeScript program use an explicit fuel
parameter; fuel exhaustion is a distinguished `.error`, so every `.ok` result
is a faithful run of the source.
-/

/-- Association-list lookup used to model the JavaScript `Map.get`. -/
def assocFind {α β : Type} [DecidableEq α] (key : α) : List (α × β) → Option β
  | [] => none
  | (k, v) :: rest => if k = key then some v else assocFind key rest

/-- Association-list in-place update used to model mutation of a value already
stored in a JavaScript `Map`. -/
def assocUpdate {α β : Type} [DecidableEq α] (key : α) (f : β → β) :
    List (α × β) → List (α × β)
  | [] => []
  | (k, v) :: rest =>
    if k = key then (k, f v) :: rest else (k, v) :: assocUpdate key f rest

/-- Modelled from the spec: the subset of `ts.SyntaxKind` that the core
inspects.  `SymbolAnalyzer.isAstDeclaration` and `TypeScriptHelpers` are code
of this repository that is not under src/; the spec (§4.1) describes the
graph-relevant kinds as "class/interface/function/variable/enum/namespace-like
declarations" and excludes type parameters, anonymous type literals and
comments. -/
inductive SynKind where
  | classDeclaration
  | interfaceDeclaration
  | functionDeclaration
  | variableDeclaration
  | enumDeclaration
  | moduleDeclaration
  | typeAliasDeclaration
  | methodDeclaration
  | propertyDeclaration
  | sourceFile
  | jsDocComment
  | typeReference
  | expressionWithTypeArguments
  | computedPropertyName
  | identifier
  | typeParameter
  | otherKind
deriving DecidableEq, Repr

/-- Modelled from the spec: `SymbolAnalyzer.isAstDeclaration` (not under src/),
the predicate called `isGraphRelevantKind` in spec §4.1. -/
def isAstDeclarationKind : SynKind → Bool
  | .classDeclaration => true
  | .interfaceDeclaration => true
  | .functionDeclaration => true
  | .variableDeclaration => true
  | .enumDeclaration => true
  | .moduleDeclaration => true
  | .typeAliasDeclaration => true
  | .methodDeclaration => true
  | .propertyDeclaration => true
  | _ => false

/-- Modelled from the spec: `AstImport` (not under src/) is the identity key
`(packageName, exportedName)` for externally-originating symbols, used purely
for cache lookup via its key string (spec §3). -/
structure AstImport where
  packageName : String
  exportedName : String
deriving DecidableEq, Repr

/-- Modelled from the spec: the `importKey` string derived from the
`(packageName, exportedName)` pair. -/
def AstImport.key (a : AstImport) : String :=
  a.packageName ++ ":" ++ a.exportedName

/-- The provider's view of one `ts.Node`.  `parentId`/`childIds` give the
syntax-tree shape; `symbolId` models `TypeScriptHelpers.getSymbolForDeclaration`
for declaration nodes and `typeChecker.getSymbolAtLocation` for identifiers;
`fromExternalLibrary` models `program.isSourceFileFromExternalLibrary` of the
node's source file and `aedocSupported` models
`packageMetadataManager.isAedocSupportedFor` of that file's name. -/
structure NodeData where
  kind : SynKind
  parentId : Option Nat
  childIds : List Nat
  symbolId : Option Nat
  fromExternalLibrary : Bool
  aedocSupported : Bool
deriving DecidableEq, Repr

/-- The provider's view of one input `ts.Symbol`: the result of
`SymbolAnalyzer.followAliases` (followed identity, local name, ambient flag,
optional import origin) together with the followed symbol's `flags` bits
(`TypeParameter`, `TypeLiteral`, `Transient`), its `name` and its
`declarations` (as node ids). -/
structure SymbolData where
  followedId : Nat
  localName : String
  followedName : String
  isAmbient : Bool
  astImport : Option AstImport
  flagTypeParameter : Bool
  flagTypeLiteral : Bool
  flagTransient : Bool
  declNodeIds : List Nat
deriving DecidableEq, Repr

/-- The read-only environment: the TypeScript program plus the semantic
provider's answers, keyed by numeric identities. -/
structure Env where
  symbols : List (Nat × SymbolData)
  nodes : List (Nat × NodeData)
deriving Repr

def Env.symbol (env : Env) (sid : Nat) : Option SymbolData :=
  assocFind sid env.symbols

def Env.node (env : Env) (nid : Nat) : Option NodeData :=
  assocFind nid env.nodes

/-- One entry of the `AstSymbol` arena.  Object identity in the source is
modelled by the arena index.  `rootIdx` embeds `AstSymbol.rootAstSymbol`
(spec §3: the topmost ancestor, self if no parent); `analyzedFlag` backs the
`analyzed` getter; `declNodeIds` lists the attached `AstDeclaration`s. -/
structure AstSymbolData where
  localName : String
  followedId : Nat
  astImport : Option AstImport
  parentIdx : Option Nat
  rootIdx : Nat
  nominal : Bool
  analyzedFlag : Bool
  declNodeIds : List Nat
deriving DecidableEq, Repr

/-- Modelled from the spec: `AstSymbol.imported` (not under src/) is true when
the symbol has an import origin (spec §3 `importOrigin`). -/
def AstSymbolData.imported (s : AstSymbolData) : Bool :=
  s.astImport.isSome

/-- One entry of the `AstDeclaration` table, keyed by its `ts.Node` id.
`referencedAstSymbols` and `children` are modelled from the spec (§3): ordered,
deduplicated, insertion order. -/
structure AstDeclarationData where
  astSymbolIdx : Nat
  parentDeclNodeId : Option Nat
  referencedAstSymbols : List Nat
  children : List Nat
deriving DecidableEq, Repr

/-- The mutable state of `AstSymbolTable`: the `AstSymbol` arena plus the three
cache maps `_astSymbolsBySymbol`, `_astSymbolsByImportKey` and
`_astDeclarationsByDeclaration`. -/
structure TableState where
  astSymbols : List AstSymbolData
  astSymbolsBySymbol : List (Nat × Nat)
  astSymbolsByImportKey : List (String × Nat)
  astDeclarationsByDeclaration : List (Nat × AstDeclarationData)
deriving DecidableEq, Repr

def TableState.empty : TableState := ⟨[], [], [], []⟩

instance : Inhabited TableState := ⟨TableState.empty⟩

def TableState.getSymbol (st : TableState) (i : Nat) : Option AstSymbolData :=
  st.astSymbols.get? i

/-- Modelled from the spec: `AstSymbol.analyzed` (not under src/), the
monotonic flag set exactly once by the graph builder (spec §3); the whole
declaration tree of a root transitions together, so the getter consults the
root's flag. -/
def TableState.analyzedOf (st : TableState) (i : Nat) : Bool :=
  match st.getSymbol i with
  | none => false
  | some s =>
    match st.getSymbol s.rootIdx with
    | none => false
    | some r => r.analyzedFlag

/-- Modelled from the spec: `AstSymbol._notifyAnalyzed` (not under src/),
which records that analysis of the symbol is complete. -/
def TableState.notifyAnalyzed (st : TableState) (i : Nat) : TableState :=
  match st.getSymbol i with
  | none => st
  | some s =>
    { st with astSymbols := st.astSymbols.set i { s with analyzedFlag := true } }

/-- Modelled from the spec: `AstDeclaration._notifyReferencedAstSymbol` (not
under src/); `references` is an ordered, deduplicated sequence (spec §3). -/
def TableState.notifyReferenced (st : TableState) (govNodeId : Nat)
    (refIdx : Nat) : TableState :=
  { st with
    astDeclarationsByDeclaration :=
      assocUpdate govNodeId
        (fun d =>
          if d.referencedAstSymbols.contains refIdx then d
          else { d with referencedAstSymbols := d.referencedAstSymbols ++ [refIdx] })
        st.astDeclarationsByDeclaration }

/-- Embeds `AstSymbolTable._tryFindFirstAstDeclarationParent` (part_001 lines
411-420): walk `node.parent` upward until a node whose kind satisfies
`isAstDeclaration` is found.  The `while` loop is fueled; exhaustion is a
distinguished error. -/
def tryFindParentLoop (env : Env) : Nat → Option Nat → Except String (Option Nat)
  | _, none => .ok none
  | 0, some _ => .error "model: out of fuel in _tryFindFirstAstDeclarationParent"
  | fuel + 1, some nid =>
    match env.node nid with
    | none => .error "model: dangling ts.Node"
    | some n =>
      if isAstDeclarationKind n.kind then .ok (some nid)
      else tryFindParentLoop env fuel n.parentId

def tryFindFirstAstDeclarationParent (env : Env) (fuel : Nat) (nid : Nat) :
    Except String (Option Nat) :=
  match env.node nid with
  | none => .error "model: dangling ts.Node"
  | some n => tryFindParentLoop env fuel n.parentId

/-- Modelled from the spec: `TypeScriptHelpers.findFirstChildNode(node,
Identifier)` (not under src/); per the comment at part_001 lines 192-194 it is
a depth-first search for the first identifier among the node's descendants. -/
def findFirstChildIdentifier (env : Env) : Nat → List Nat → Except String (Option Nat)
  | _, [] => .ok none
  | 0, _ :: _ => .error "model: out of fuel in findFirstChildNode"
  | fuel + 1, nid :: rest =>
    match env.node nid with
    | none => .error "model: dangling ts.Node"
    | some n =>
      if n.kind = SynKind.identifier then .ok (some nid)
      else findFirstChildIdentifier env fuel (n.childIds ++ rest)

/-- Embeds the final consistency check of `_fetchAstSymbol` (part_001 lines
393-403): if the current resolution carries an `astImport` but the cached or
just-created `AstSymbol` was registered as non-imported, throw; otherwise
return the `AstSymbol`.  Note the source checks only this one direction. -/
def finalImportCheck (st : TableState) (d : SymbolData) (idx : Nat) :
    Except String (TableState × Option Nat) :=
  match st.getSymbol idx with
  | none => .error "model: dangling AstSymbol index"
  | some sym =>
    if d.astImport.isSome && !sym.imported then
      .error ("Program Bug: The symbol " ++ sym.localName ++
        " is being imported after it was already registered as non-imported")
    else .ok (st, some idx)

/-- Embeds the declaration-wiring loop of `_fetchAstSymbol` (part_001 lines
367-389): for each of the followed symbol's declarations, find its nearest
already-registered parent `AstDeclaration` (only when a parent `AstSymbol`
exists), create the `AstDeclaration`, and record it in
`_astDeclarationsByDeclaration`.  Attaching the new declaration to its
parent's `children` is modelled from the spec (§3), since the `AstDeclaration`
constructor is not under src/. -/
def wireDeclarations (env : Env) (fuel : Nat) (newIdx : Nat)
    (parentExists : Bool) : TableState → List Nat → Except String TableState
  | st, [] => .ok st
  | st, declId :: rest =>
    let wireOne : Except String TableState :=
      if parentExists then
        match tryFindFirstAstDeclarationParent env fuel declId with
        | .error e => .error e
        | .ok none => .error "Program bug: Missing parent declaration"
        | .ok (some parentDeclId) =>
          match assocFind parentDeclId st.astDeclarationsByDeclaration with
          | none => .error "Program bug: Missing parent AstDeclaration"
          | some _ =>
            let newDecl : AstDeclarationData :=
              ⟨newIdx, some parentDeclId, [], []⟩
            let withChild :=
              assocUpdate parentDeclId
                (fun p => { p with children := p.children ++ [declId] })
                st.astDeclarationsByDeclaration
            .ok { st with
                  astDeclarationsByDeclaration := (declId, newDecl) :: withChild }
      else
        let newDecl : AstDeclarationData := ⟨newIdx, none, [], []⟩
        .ok { st with
              astDeclarationsByDeclaration :=
                (declId, newDecl) :: st.astDeclarationsByDeclaration }
    match wireOne with
    | .error e => .error e
    | .ok st1 => wireDeclarations env fuel newIdx parentExists st1 rest

/-- Computes the `rootAstSymbol` index of a new `AstSymbol`: the parent's root
when a parent exists, otherwise the new symbol itself.  Modelled from the spec
(§3: `root` is the topmost ancestor, self if no parent), since the
`AstSymbol` constructor is not under src/. -/
def resolveRootIdx (st : TableState) (selfIdx : Nat) : Option Nat → Except String Nat
  | none => .ok selfIdx
  | some p =>
    match st.getSymbol p with
    | none => .error "model: dangling parent AstSymbol index"
    | some ps => .ok ps.rootIdx

/-- Embeds the conditional registration in `_astSymbolsByImportKey`
(part_001 lines 362-365): only performed when the symbol is an import. -/
def importKeyRegister (m : List (String × Nat)) (newIdx : Nat) :
    Option AstImport → List (String × Nat)
  | some imp => (imp.key, newIdx) :: m
  | none => m

/-- Embeds the construction and registration part of `_fetchAstSymbol`
(part_001 lines 351-389): build the new `AstSymbol`, register it in
`_astSymbolsBySymbol` (and in `_astSymbolsByImportKey` when it is an import),
then wire up its declarations. -/
def constructAstSymbol (env : Env) (fuel : Nat) (st : TableState)
    (d : SymbolData) (nominal : Bool) (parentIdx : Option Nat) :
    Except String (TableState × Option Nat) :=
  let newIdx := st.astSymbols.length
  match resolveRootIdx st newIdx parentIdx with
  | .error e => .error e
  | .ok rootIdx =>
    let sym : AstSymbolData :=
      ⟨d.localName, d.followedId, d.astImport, parentIdx, rootIdx, nominal,
        false, d.declNodeIds⟩
    let st1 :=
      { st with
        astSymbols := st.astSymbols ++ [sym]
        astSymbolsBySymbol := (d.followedId, newIdx) :: st.astSymbolsBySymbol
        astSymbolsByImportKey :=
          importKeyRegister st.astSymbolsByImportKey newIdx d.astImport }
    match wireDeclarations env fuel newIdx parentIdx.isSome st1 d.declNodeIds with
    | .error e => .error e
    | .ok st2 => finalImportCheck st2 d newIdx

/-- Embeds the unsupported-construct check of `_fetchAstSymbol` (part_001
lines 317-322): every declaration of a non-nominal symbol must satisfy
`isAstDeclaration`, otherwise a fatal internal error is thrown. -/
def checkDeclarationKinds (env : Env) (followedName : String) :
    List Nat → Except String Unit
  | [] => .ok ()
  | nid :: rest =>
    match env.node nid with
    | none => .error "model: dangling ts.Node"
    | some n =>
      if isAstDeclarationKind n.kind then checkDeclarationKinds env followedName rest
      else
        .error ("Program Bug: The \x22" ++ followedName ++
          "\x22 symbol uses a construct which may be an unimplemented language feature")

/-- Embeds the `_astSymbolsByImportKey` lookup of `_fetchAstSymbol`
(part_001 lines 273-284): only consulted when the resolution carries an
`astImport`. -/
def importKeyLookup (st : TableState) : Option AstImport → Option Nat
  | some imp => assocFind imp.key st.astSymbolsByImportKey
  | none => none

/-- Embeds `AstSymbolTable._fetchAstSymbol` (part_001 lines 252-406).  The
stages follow the source in order: follow aliases (the `SymbolData` looked up
in `env`), filter out `TypeParameter`/`TypeLiteral`/`Transient` flags and
ambient symbols, look up `_astSymbolsBySymbol` by followed identity, check for
declarations, look up `_astSymbolsByImportKey` (memoizing a hit under the
followed identity), otherwise compute `nominal`, check declaration kinds,
resolve the parent symbol recursively, construct and register, and finally run
the import-status consistency check.  NOTE: exactly as in the source, the
`addIfMissing` flag is never consulted except to be passed to the recursive
parent fetch. -/
def fetchAstSymbol (env : Env) (fuel : Nat) (st : TableState) (symbolId : Nat)
    (addIfMissing : Bool) : Except String (TableState × Option Nat) :=
  match env.symbol symbolId with
  | none => .error "model: dangling ts.Symbol"
  | some d =>
    if d.flagTypeParameter || d.flagTypeLiteral || d.flagTransient then
      .ok (st, none)
    else if d.isAmbient then
      .ok (st, none)
    else
      match assocFind d.followedId st.astSymbolsBySymbol with
      | some idx => finalImportCheck st d idx
      | none =>
        match d.declNodeIds with
        | [] => .error "Program Bug: Followed a symbol with no declarations"
        | firstDeclId :: _ =>
          match importKeyLookup st d.astImport with
          | some idx =>
            let st1 :=
              { st with
                astSymbolsBySymbol := (d.followedId, idx) :: st.astSymbolsBySymbol }
            finalImportCheck st1 d idx
          | none =>
            match env.node firstDeclId with
            | none => .error "model: dangling ts.Node"
            | some firstNode =>
              let nominal :=
                (d.declNodeIds.length == 1 && firstNode.kind == SynKind.sourceFile)
                || (firstNode.fromExternalLibrary && !firstNode.aedocSupported)
              if nominal then
                constructAstSymbol env fuel st d true none
              else
                match checkDeclarationKinds env d.followedName d.declNodeIds with
                | .error e => .error e
                | .ok _ =>
                  match tryFindFirstAstDeclarationParent env fuel firstDeclId with
                  | .error e => .error e
                  | .ok none => constructAstSymbol env fuel st d false none
                  | .ok (some parentDeclId) =>
                    match env.node parentDeclId with
                    | none => .error "model: dangling ts.Node"
                    | some pn =>
                      match pn.symbolId with
                      | none => .error "model: getSymbolForDeclaration found no symbol"
                      | some parentSid =>
                        match fuel with
                        | 0 => .error "model: out of fuel in _fetchAstSymbol"
                        | f + 1 =>
                          match fetchAstSymbol env f st parentSid addIfMissing with
                          | .error e => .error e
                          | .ok (_, none) =>
                            .error ("Program bug: Unable to construct a parent AstSymbol for "
                              ++ d.followedName)
                          | .ok (st1, some parentIdx) =>
                            constructAstSymbol env fuel st1 d false (some parentIdx)

/-- Embeds `AstSymbolTable.tryGetAstSymbol` (part_001 lines 153-155): it simply
delegates to `_fetchAstSymbol(symbol, false)`. -/
def tryGetAstSymbol (env : Env) (fuel : Nat) (st : TableState) (symbolId : Nat) :
    Except String (TableState × Option Nat) :=
  fetchAstSymbol env fuel st symbolId false

/-- Embeds `AstSymbolTable._fetchAstDeclaration` together with
`_fetchAstSymbolForNode` (part_001 lines 224-250): nodes whose kind is not an
AST declaration yield nothing; otherwise the node's symbol is fetched (creating
the `AstSymbol` on a miss) and the already-constructed `AstDeclaration` is
looked up, a miss being a fatal internal error.  Returns the node id of the
found `AstDeclaration`. -/
def fetchAstDeclaration (env : Env) (fuel : Nat) (st : TableState) (nodeId : Nat) :
    Except String (TableState × Option Nat) :=
  match env.node nodeId with
  | none => .error "model: dangling ts.Node"
  | some n =>
    if !isAstDeclarationKind n.kind then .ok (st, none)
    else
      match n.symbolId with
      | none => .error "Program Bug: Unable to find symbol for node"
      | some sid =>
        match fetchAstSymbol env fuel st sid true with
        | .error e => .error e
        | .ok (st1, none) => .ok (st1, none)
        | .ok (st1, some _) =>
          match assocFind nodeId st1.astDeclarationsByDeclaration with
          | none => .error "Program Bug: Unable to find constructed AstDeclaration"
          | some _ => .ok (st1, some nodeId)

/-- Commands of the fueled child-tree walk: one `ts.Node`, or a list of child
nodes, processed under a governing `AstDeclaration` (identified by its node
id). -/
inductive WalkCmd where
  | tree (nodeId : Nat) (gov : Nat)
  | nodeList (nodeIds : List Nat) (gov : Nat)
deriving Repr

/-- Embeds `AstSymbolTable._analyzeChildTree` (part_001 lines 182-221).
JSDoc comments are skipped entirely; for type references, `extends`-style
heritage clauses and computed property names the first identifier child is
located, its symbol resolved and recorded on the governing declaration's
`referencedAstSymbols`; then the node itself is fetched as a declaration and,
if it is one, becomes the governing declaration for its children. -/
def walkChildTree (env : Env) : Nat → TableState → WalkCmd → Except String TableState
  | _, st, .nodeList [] _ => .ok st
  | 0, _, .nodeList (_ :: _) _ => .error "model: out of fuel in _analyzeChildTree"
  | f + 1, st, .nodeList (c :: rest) gov =>
    match walkChildTree env f st (.tree c gov) with
    | .error e => .error e
    | .ok st1 => walkChildTree env f st1 (.nodeList rest gov)
  | fuel, st, .tree nodeId gov =>
    match env.node nodeId with
    | none => .error "model: dangling ts.Node"
    | some n =>
      if n.kind = SynKind.jsDocComment then .ok st
      else
        let afterSwitch : Except String TableState :=
          if n.kind = SynKind.typeReference
              || n.kind = SynKind.expressionWithTypeArguments
              || n.kind = SynKind.computedPropertyName then
            match findFirstChildIdentifier env fuel n.childIds with
            | .error e => .error e
            | .ok none => .ok st
            | .ok (some identId) =>
              match env.node identId with
              | none => .error "model: dangling ts.Node"
              | some identNode =>
                match identNode.symbolId with
                | none => .error "Symbol not found for identifier"
                | some sid =>
                  match fetchAstSymbol env fuel st sid true with
                  | .error e => .error e
                  | .ok (st1, none) => .ok st1
                  | .ok (st1, some refIdx) => .ok (st1.notifyReferenced gov refIdx)
          else .ok st
        match afterSwitch with
        | .error e => .error e
        | .ok st1 =>
          match fetchAstDeclaration env fuel st1 nodeId with
          | .error e => .error e
          | .ok (st2, newGov) =>
            match fuel with
            | 0 => .error "model: out of fuel in _analyzeChildTree"
            | f + 1 =>
              walkChildTree env f st2 (.nodeList n.childIds (newGov.getD gov))

/-- Runs `_analyzeChildTree` once for each declaration of the root symbol,
embedding the loop at part_001 lines 128-130; each declaration's own node is
walked with that declaration as the initial governing declaration. -/
def walkRootDeclarations (env : Env) (fuel : Nat) :
    TableState → List Nat → Except String TableState
  | st, [] => .ok st
  | st, nid :: rest =>
    match walkChildTree env fuel st (.tree nid nid) with
    | .error e => .error e
    | .ok st1 => walkRootDeclarations env fuel st1 rest

/-- Commands of the fueled analysis recursion: `analyze` one `AstSymbol`, or
the recursive `forEachDeclarationRecursive` traversal (declaration list,
single declaration, referenced-symbol list) used for the forgotten-export
closure. -/
inductive AnalyzeCmd where
  | analyzeSymbol (idx : Nat)
  | declList (nodeIds : List Nat)
  | declOne (nodeId : Nat)
  | refList (refs : List Nat)
deriving Repr

/-- Embeds `AstSymbolTable.analyze` (part_001 lines 113-147) together with the
`forEachDeclarationRecursive` traversal of the forgotten-export closure (the
traversal itself is modelled from the spec, since `AstSymbol`/`AstDeclaration`
are not under src/): no-op when already analyzed; nominal symbols are only
marked; otherwise every declaration subtree of the root symbol is walked, the
root is marked analyzed, and, when the symbol is not imported, every
non-imported referenced symbol in the subtree is analyzed recursively. -/
def analyzeExec (env : Env) : Nat → TableState → AnalyzeCmd → Except String TableState
  | fuel, st, .analyzeSymbol idx =>
    match st.getSymbol idx with
    | none => .error "model: dangling AstSymbol index"
    | some sym =>
      if st.analyzedOf idx then .ok st
      else if sym.nominal then .ok (st.notifyAnalyzed idx)
      else
        match st.getSymbol sym.rootIdx with
        | none => .error "model: dangling AstSymbol index"
        | some rootSym =>
          match walkRootDeclarations env fuel st rootSym.declNodeIds with
          | .error e => .error e
          | .ok st1 =>
            let st2 := st1.notifyAnalyzed sym.rootIdx
            if sym.astImport.isSome then .ok st2
            else
              match fuel with
              | 0 => .error "model: out of fuel in analyze"
              | f + 1 => analyzeExec env f st2 (.declList rootSym.declNodeIds)
  | _, st, .declList [] => .ok st
  | 0, _, .declList (_ :: _) => .error "model: out of fuel in analyze"
  | f + 1, st, .declList (nid :: rest) =>
    match analyzeExec env f st (.declOne nid) with
    | .error e => .error e
    | .ok st1 => analyzeExec env f st1 (.declList rest)
  | 0, _, .declOne _ => .error "model: out of fuel in analyze"
  | f + 1, st, .declOne nid =>
    match assocFind nid st.astDeclarationsByDeclaration with
    | none => .error "model: dangling AstDeclaration"
    | some d =>
      match analyzeExec env f st (.refList d.referencedAstSymbols) with
      | .error e => .error e
      | .ok st1 => analyzeExec env f st1 (.declList d.children)
  | _, st, .refList [] => .ok st
  | 0, _, .refList (_ :: _) => .error "model: out of fuel in analyze"
  | f + 1, st, .refList (r :: rest) =>
    match st.getSymbol r with
    | none => .error "model: dangling AstSymbol index"
    | some refSym =>
      match (if !refSym.imported then analyzeExec env f st (.analyzeSymbol r) else .ok st) with
      | .error e => .error e
      | .ok st1 => analyzeExec env f st1 (.refList rest)

/-- Embeds the public `AstSymbolTable.analyze` entry point. -/
def analyze (env : Env) (fuel : Nat) (st : TableState) (idx : Nat) :
    Except String TableState :=
  analyzeExec env fuel st (.analyzeSymbol idx)

/-- Embeds `ExcerptTokenKind` (part_000 lines 131-136). -/
inductive ExcerptTokenKind where
  | content
  | reference
deriving DecidableEq, Repr

/-- Embeds `ExcerptToken` (part_000 lines 172-180). -/
structure ExcerptToken where
  kind : ExcerptTokenKind
  text : String
deriving DecidableEq, Repr

/-- Embeds `IExcerptTokenRange` (part_000 lines 149-152). -/
structure ExcerptTokenRange where
  startIndex : Nat
  endIndex : Nat
deriving DecidableEq, Repr

/-- Embeds `Excerpt` (part_000 lines 183-202); `cachedText` is the private
`_text` field, `none` as left by the constructor. -/
structure Excerpt where
  tokens : List ExcerptToken
  tokenRange : ExcerptTokenRange
  cachedText : Option String
deriving DecidableEq, Repr

/-- Models `Array.prototype.slice(start, end)` for natural indices: the
elements of the half-open index range `[start, end)` that exist. -/
def jsSlice {α : Type} (l : List α) (s e : Nat) : List α :=
  (l.drop s).take (e - s)

/-- Embeds the `Excerpt.text` getter (part_000 lines 195-201): on the first
access the covered tokens' text is concatenated and memoized in `_text`;
subsequent accesses return the cached string.  The getter is modelled as a
state transition returning the string and the updated object. -/
def Excerpt.textGet (e : Excerpt) : String × Excerpt :=
  match e.cachedText with
  | some t => (t, e)
  | none =>
    let t := String.join
      ((jsSlice e.tokens e.tokenRange.startIndex e.tokenRange.endIndex).map
        ExcerptToken.text)
    (t, { e with cachedText := some t })

/-- Embeds the data of `ApiMethod`
(src/apps/api-extractor/src/api/model/ApiMethod.ts) that
`getCanonicalReference` consumes: `name` (from `ApiDeclarationMixin`),
`isStatic` (from `ApiStaticMixin`) and `overloadIndex` (from
`ApiFunctionLikeMixin`). -/
structure ApiMethod where
  name : String
  isStatic : Bool
  overloadIndex : Nat
deriving DecidableEq, Repr

/-- Embeds `ApiMethod.getCanonicalReference` (ApiMethod.ts lines 27-33). -/
def ApiMethod.getCanonicalReference (name : String) (isStatic : Bool)
    (overloadIndex : Nat) : String :=
  if isStatic then s!"({name}:static,{overloadIndex})"
  else s!"({name}:instance,{overloadIndex})"

/-- Embeds the `ApiMethod.canonicalReference` getter (ApiMethod.ts lines
46-49). -/
def ApiMethod.canonicalReference (m : ApiMethod) : String :=
  ApiMethod.getCanonicalReference m.name m.isStatic m.overloadIndex

/-- Models JS `String.prototype.toUpperCase` on the character list of a
string (the paths involved are ASCII). -/
def toUpperChars (s : String) : List Char :=
  s.data.map Char.toUpper

/-- Embeds `Extractor._declarationFileExtensionRegExp` (Extractor.ts line 136),
the case-insensitive test `/\.d\.ts$/i`: the uppercased path ends with the
five characters `.D.TS`. -/
def declarationFileExtensionTest (s : String) : Bool :=
  List.isPrefixOf ['S', 'T', '.', 'D', '.'] (toUpperChars s).reverse

/-- Embeds the loop body of `Extractor.generateFilePathsForAnalysis`
(Extractor.ts lines 167-188): paths are deduplicated by uppercased spelling;
at the first occurrence of each path it must be absolute (else throw) and it
is kept exactly when it matches the declaration-file extension.
`path.isAbsolute` is platform behavior of Node, abstracted as the `isAbs`
parameter. -/
def generateLoop (isAbs : String → Bool) (seenFiles : List (List Char)) :
    List String → Except String (List String)
  | [] => .ok []
  | inputFilePath :: rest =>
    let inputFileToUpper := toUpperChars inputFilePath
    if seenFiles.contains inputFileToUpper then generateLoop isAbs seenFiles rest
    else
      if !isAbs inputFilePath then
        .error ("Input file is not an absolute path: " ++ inputFilePath)
      else if declarationFileExtensionTest inputFilePath then
        match generateLoop isAbs (inputFileToUpper :: seenFiles) rest with
        | .error e => .error e
        | .ok l => .ok (inputFilePath :: l)
      else generateLoop isAbs (inputFileToUpper :: seenFiles) rest

/-- Embeds `Extractor.generateFilePathsForAnalysis` (Extractor.ts lines
167-188). -/
def generateFilePathsForAnalysis (isAbs : String → Bool)
    (inputFilePaths : List String) : Except String (List String) :=
  generateLoop isAbs [] inputFilePaths

/-- Keeps the first occurrence of each path under case-insensitive
(uppercased) comparison; this is the reference description of the
deduplication performed by `generateFilePathsForAnalysis`. -/
def dedupCaseInsensitive (seen : List (List Char)) : List String → List String
  | [] => []
  | p :: rest =>
    if seen.contains (toUpperChars p) then dedupCaseInsensitive seen rest
    else p :: dedupCaseInsensitive (toUpperChars p :: seen) rest

/-- Modelled from the spec: the diagnostic counters of `MonitoredLogger` (not
under src/); spec §7: user diagnostics are accumulated via counters. -/
structure Counters where
  errorCount : Nat
  warningCount : Nat
deriving DecidableEq, Repr

def Counters.reset : Counters := ⟨0, 0⟩

/-- One user-diagnostic event sent to the monitored logger during a run. -/
inductive LogEvent where
  | logVerbose
  | logInfo
  | logWarning
  | logError
deriving DecidableEq, Repr

/-- Modelled from the spec: `MonitoredLogger` counting (not under src/);
errors and warnings are counted, verbose/info messages are forwarded only. -/
def Counters.apply (c : Counters) : LogEvent → Counters
  | .logError => { c with errorCount := c.errorCount + 1 }
  | .logWarning => { c with warningCount := c.warningCount + 1 }
  | _ => c

def Counters.applyAll (c : Counters) (events : List LogEvent) : Counters :=
  events.foldl Counters.apply c

/-- The configuration data consumed by `_generateRollupDtsFiles`
(Extractor.ts lines 377-447).  The `path.resolve`/`Path.isUnder`/
`path.isAbsolute` computations are Node platform behavior, abstracted as the
boolean fields `typingsIsUnderPublishFolderForInternal`,
`typingsIsUnderPublishFolder` and `mainPathIsAbsolute`. -/
structure DtsRollupConfig where
  enabled : Bool
  trimming : Bool
  mainDtsRollupPath : String
  hasTypings : Bool
  typingsIsUnderPublishFolderForInternal : Bool
  typingsIsUnderPublishFolder : Bool
  mainPathIsAbsolute : Bool
deriving DecidableEq, Repr

/-- Embeds the logging behavior of `Extractor._generateRollupDtsFiles` and
`_generateRollupDtsFile` (Extractor.ts lines 377-455) as the list of
diagnostic events it emits: the early-error paths emit one `logError` and
stop; otherwise the verbose path announcement, the events of
`DtsRollupGenerator.analyze()` and `writeTypingsFile` (external collaborators,
abstracted as `generatorEvents`), and one `logVerbose` per rollup file written
(three when trimming, one otherwise). -/
def generateRollupEvents (c : DtsRollupConfig) (generatorEvents : List LogEvent) :
    List LogEvent :=
  if !c.enabled then []
  else
    let writes : List LogEvent :=
      if c.trimming then [.logVerbose, .logVerbose, .logVerbose] else [.logVerbose]
    if c.mainDtsRollupPath = "" then
      if !c.hasTypings then [.logError]
      else if c.trimming then
        if !c.typingsIsUnderPublishFolderForInternal then [.logError]
        else [.logVerbose] ++ generatorEvents ++ writes
      else
        if !c.typingsIsUnderPublishFolder then [.logError]
        else [.logVerbose] ++ generatorEvents ++ writes
    else
      if c.mainPathIsAbsolute then [.logVerbose, .logError]
      else [.logVerbose] ++ generatorEvents ++ writes

/-- The diagnostic events accumulated during one `processProject` invocation:
the events of context construction, model building and api-json writing
(external collaborators, abstracted as `analysisEvents`), the `Writing:`
verbose message when the api-json file is enabled, then the rollup events. -/
def processProjectEvents (apiJsonEnabled : Bool) (c : DtsRollupConfig)
    (analysisEvents generatorEvents : List LogEvent) : List LogEvent :=
  analysisEvents ++ (if apiJsonEnabled then [LogEvent.logVerbose] else [])
    ++ generateRollupEvents c generatorEvents

/-- Embeds `Extractor.processProject` (Extractor.ts lines 318-375): counters
are reset first; a non-normalized configuration or a non-declaration entry
point throws; the analysis, api-json and rollup stages emit their diagnostics;
finally a local build succeeds iff no errors were accumulated, any other build
iff neither errors nor warnings were accumulated.  The `initialCounters`
parameter is the logger's pre-invocation state; it is deliberately never read
after the reset, exactly as `resetCounters()` discards it. -/
def processProject (initialCounters : Counters) (localBuild : Bool)
    (configNormalized : Bool) (entryPointSourceFile : String)
    (apiJsonEnabled : Bool) (c : DtsRollupConfig)
    (analysisEvents generatorEvents : List LogEvent) :
    Except String (Counters × Bool) :=
  let counters := Counters.reset
  if !configNormalized then
    .error "The configuration object was not normalized properly"
  else if !declarationFileExtensionTest entryPointSourceFile then
    .error ("The entry point is not a declaration file: " ++ entryPointSourceFile)
  else
    let counters := counters.applyAll analysisEvents
    let counters :=
      if apiJsonEnabled then counters.apply .logVerbose else counters
    let counters := counters.applyAll (generateRollupEvents c generatorEvents)
    if localBuild then .ok (counters, counters.errorCount == 0)
    else .ok (counters, counters.errorCount + counters.warningCount == 0)

/-- The arena-preservation relation used for the analysis lemmas: every
`AstSymbol` present before a table operation is still present afterwards, with
the same `rootIdx`, and its analyzed flag can only go from false to true. -/
def arenaPreserved (st st' : TableState) : Prop :=
  ∀ i s, st.getSymbol i = some s →
    ∃ s', st'.getSymbol i = some s' ∧ s'.rootIdx = s.rootIdx
      ∧ (s.analyzedFlag = true → s'.analyzedFlag = true)

/-- Concrete input for exercising `tryGetAstSymbol` on a cache miss: one class
symbol, not imported, not ambient, with a single class declaration node. -/
def envC1 : Env :=
  ⟨[(1, ⟨1, "X", "X", false, none, false, false, false, [10]⟩)],
   [(10, ⟨SynKind.classDeclaration, none, [], some 1, false, true⟩)]⟩

/-- The table state actually produced by `tryGetAstSymbol` from the empty
state on `envC1`: a freshly constructed `AstSymbol` and `AstDeclaration`. -/
def stC1After : TableState :=
  ⟨[⟨"X", 1, none, none, 0, false, false, [10]⟩], [(1, 0)], [],
   [(10, ⟨0, none, [], []⟩)]⟩

def impX : AstImport := ⟨"pkg", "X"⟩

/-- Concrete environment for the import-status consistency check: symbol 2
resolves without an import origin, symbol 3 resolves with one; both follow to
identity 1, declared at the class node 10. -/
def envC2 : Env :=
  ⟨[(2, ⟨1, "X", "X", false, none, false, false, false, [10]⟩),
    (3, ⟨1, "X", "X", false, some impX, false, false, false, [10]⟩)],
   [(10, ⟨SynKind.classDeclaration, none, [], some 2, false, true⟩)]⟩

/-- The table state produced by resolving symbol 3 of `envC2` from the empty
state: followed identity 1 is registered as imported. -/
def stImported : TableState :=
  ⟨[⟨"X", 1, some impX, none, 0, false, false, [10]⟩], [(1, 0)], [("pkg:X", 0)],
   [(10, ⟨0, none, [], []⟩)]⟩

/-- The table state produced by resolving symbol 2 of `envC2` from the empty
state: followed identity 1 is registered as non-imported. -/
def stNonImported : TableState :=
  ⟨[⟨"X", 1, none, none, 0, false, false, [10]⟩], [(1, 0)], [],
   [(10, ⟨0, none, [], []⟩)]⟩

/-- Concrete environment for analyzing one simple class symbol. -/
def envC3 : Env :=
  ⟨[(1, ⟨1, "X", "X", false, none, false, false, false, [10]⟩)],
   [(10, ⟨SynKind.classDeclaration, none, [], some 1, false, true⟩)]⟩

/-- The table state holding the constructed (but not yet analyzed) class
symbol of `envC3`. -/
def stC3Pre : TableState :=
  ⟨[⟨"X", 1, none, none, 0, false, false, [10]⟩], [(1, 0)], [],
   [(10, ⟨0, none, [], []⟩)]⟩

/-- The state after `analyze` completed on `stC3Pre`: only the analyzed flag
changed. -/
def stC3After : TableState :=
  ⟨[⟨"X", 1, none, none, 0, false, true, [10]⟩], [(1, 0)], [],
   [(10, ⟨0, none, [], []⟩)]⟩

/-- Concrete environment with two distinct symbols (6 and 7, followed
identities 6 and 7) that share one external import origin `impX`. -/
def envC4 : Env :=
  ⟨[(6, ⟨6, "A", "A", false, some impX, false, false, false, [20]⟩),
    (7, ⟨7, "B", "B", false, some impX, false, false, false, [21]⟩)],
   [(20, ⟨SynKind.classDeclaration, none, [], some 6, false, true⟩),
    (21, ⟨SynKind.classDeclaration, none, [], some 7, false, true⟩)]⟩

/-- Concrete environment with an ambient symbol (4) and a type-parameter
symbol (5). -/
def envC5 : Env :=
  ⟨[(4, ⟨4, "Amb", "Amb", true, none, false, false, false, [11]⟩),
    (5, ⟨5, "TP", "TP", false, none, true, false, false, [12]⟩)], []⟩

/-- Concrete environment with a module-as-namespace symbol (8, one source-file
declaration) and a symbol using an unsupported construct (9). -/
def envC6 : Env :=
  ⟨[(8, ⟨8, "M", "M", false, none, false, false, false, [30]⟩),
    (9, ⟨9, "Bad", "Bad", false, none, false, false, false, [31]⟩)],
   [(30, ⟨SynKind.sourceFile, none, [], none, false, true⟩),
    (31, ⟨SynKind.otherKind, none, [], some 9, false, true⟩)]⟩

/-- A rollup configuration with generation disabled. -/
def rollupOff : DtsRollupConfig := ⟨false, false, "", false, false, false, false⟩

/-- A concrete stand-in for Node's `path.isAbsolute` on POSIX paths. -/
def isAbsSlash (s : String) : Bool :=
  match s.data with
  | [] => false
  | ch :: _ => ch = '/'

theorem list_get?_lt {α : Type} : ∀ (l : List α) (i : Nat) (a : α),
    l.get? i = some a → i < l.length := by
  intro l
  induction l with
  | nil => intro i a h; cases h
  | cons x xs ih =>
    intro i a h
    cases i with
    | zero => simp
    | succ j => simpa using Nat.succ_lt_succ (ih j a (by simpa using h))

theorem list_get?_set_self {α : Type} : ∀ (l : List α) (i : Nat) (a : α),
    i < l.length → (l.set i a).get? i = some a := by
  intro l
  induction l with
  | nil => intro i a h; cases h
  | cons x xs ih =>
    intro i a h
    cases i with
    | zero => rfl
    | succ j => simpa using ih j a (by simpa using h)

theorem list_get?_set_ne {α : Type} : ∀ (l : List α) (i j : Nat) (a : α),
    i ≠ j → (l.set i a).get? j = l.get? j := by
  intro l
  induction l with
  | nil => intro i j a _; rfl
  | cons x xs ih =>
    intro i j a hne
    cases i with
    | zero =>
      cases j with
      | zero => exact absurd rfl hne
      | succ k => rfl
    | succ i' =>
      cases j with
      | zero => rfl
      | succ k => simpa using ih i' k a (fun h => hne (by rw [h]))

theorem list_set_of_get? {α : Type} : ∀ (l : List α) (i : Nat) (a : α),
    l.get? i = some a → l.set i a = l := by
  intro l
  induction l with
  | nil => intro i a h; cases h
  | cons x xs ih =>
    intro i a h
    cases i with
    | zero => simp at h; simp [h]
    | succ j => simpa using ih j a (by simpa using h)

theorem list_get?_append_left {α : Type} : ∀ (l l' : List α) (i : Nat),
    i < l.length → (l ++ l').get? i = l.get? i := by
  intro l
  induction l with
  | nil => intro l' i h; cases h
  | cons x xs ih =>
    intro l' i h
    cases i with
    | zero => rfl
    | succ j => simpa using ih l' j (by simpa using h)

theorem list_get?_concat_self {α : Type} : ∀ (l l' : List α) (a : α),
    (l ++ a :: l').get? l.length = some a := by
  intro l
  induction l with
  | nil => intro l' a; rfl
  | cons x xs ih => intro l' a; simpa using ih l' a

theorem finalImportCheck_ok {st st' : TableState} {d : SymbolData} {idx : Nat}
    {r : Option Nat} (h : finalImportCheck st d idx = .ok (st', r)) :
    st' = st ∧ r = some idx := by
  unfold finalImportCheck at h
  split at h
  · cases h
  · split at h
    · cases h
    · cases h; exact ⟨rfl, rfl⟩

theorem wireDeclarations_ok {env : Env} {fuel newIdx : Nat} {pe : Bool} :
    ∀ {ids : List Nat} {st st' : TableState},
    wireDeclarations env fuel newIdx pe st ids = .ok st' →
    st'.astSymbols = st.astSymbols
      ∧ st'.astSymbolsBySymbol = st.astSymbolsBySymbol
      ∧ st'.astSymbolsByImportKey = st.astSymbolsByImportKey := by
  intro ids
  induction ids with
  | nil =>
    intro st st' h
    rw [wireDeclarations] at h
    cases h
    exact ⟨rfl, rfl, rfl⟩
  | cons declId rest ih =>
    intro st st' h
    rw [wireDeclarations] at h
    split at h
    · cases h
    · rename_i st1 hw
      have h2 := ih h
      revert hw
      split
      · split
        · intro hw; cases hw
        · intro hw; cases hw
        · split
          · intro hw; cases hw
          · intro hw
            cases hw
            simpa using h2
      · intro hw
        cases hw
        simpa using h2

theorem constructAstSymbol_ok {env : Env} {fuel : Nat} {st st' : TableState}
    {d : SymbolData} {nom : Bool} {pIdx : Option Nat} {r : Option Nat}
    (h : constructAstSymbol env fuel st d nom pIdx = .ok (st', r)) :
    ∃ sym : AstSymbolData, st'.astSymbols = st.astSymbols ++ [sym]
      ∧ r = some st.astSymbols.length ∧ sym.nominal = nom := by
  unfold constructAstSymbol at h
  dsimp only at h
  split at h
  · cases h
  · rename_i rootIdx hroot
    split at h
    · cases h
    · rename_i st2 hw
      have hfc := finalImportCheck_ok h
      have hw2 := wireDeclarations_ok hw
      refine ⟨⟨d.localName, d.followedId, d.astImport, pIdx, rootIdx, nom, false,
        d.declNodeIds⟩, ?_, ?_, rfl⟩
      · rw [hfc.1]; exact hw2.1
      · exact hfc.2

theorem fetchAstSymbol_arena : ∀ (fuel : Nat) (env : Env) (st : TableState)
    (sid : Nat) (add : Bool) (st' : TableState) (r : Option Nat),
    fetchAstSymbol env fuel st sid add = .ok (st', r) →
    ∃ ext, st'.astSymbols = st.astSymbols ++ ext := by
  intro fuel
  induction fuel using Nat.strong_induction_on with
  | _ fuel ih =>
    intro env st sid add st' r h
    rw [fetchAstSymbol.eq_def] at h
    split at h
    · cases h
    · rename_i d hd
      split at h
      · cases h; exact ⟨[], by simp⟩
      · split at h
        · cases h; exact ⟨[], by simp⟩
        · split at h
          · have hfc := finalImportCheck_ok h
            exact ⟨[], by rw [hfc.1]; simp⟩
          · split at h
            · cases h
            · split at h
              · dsimp only at h
                have hfc := finalImportCheck_ok h
                exact ⟨[], by rw [hfc.1]; simp⟩
              · split at h
                · cases h
                · rename_i firstNode hfn
                  dsimp only at h
                  by_cases hn :
                      (d.declNodeIds.length == 1 && firstNode.kind == SynKind.sourceFile
                        || firstNode.fromExternalLibrary && !firstNode.aedocSupported) = true
                  · rw [if_pos hn] at h
                    obtain ⟨sym, hsym, _, _⟩ := constructAstSymbol_ok h
                    exact ⟨[sym], hsym⟩
                  · rw [if_neg hn] at h
                    split at h
                    · cases h
                    · split at h
                      · cases h
                      · obtain ⟨sym, hsym, _, _⟩ := constructAstSymbol_ok h
                        exact ⟨[sym], hsym⟩
                      · split at h
                        · cases h
                        · split at h
                          · cases h
                          · split at h
                            · cases h
                            · rename_i f hf
                              split at h
                              · cases h
                              · cases h
                              · rename_i st1 pIdx hrec
                                obtain ⟨ext1, hext1⟩ :=
                                  ih f (by omega) env st _ add st1 (some pIdx) hrec
                                obtain ⟨sym, hsym, _, _⟩ := constructAstSymbol_ok h
                                exact ⟨ext1 ++ [sym], by
                                  rw [hsym, hext1, List.append_assoc]⟩

theorem fetchAstDeclaration_arena {env : Env} {fuel : Nat} {st st' : TableState}
    {nid : Nat} {r : Option Nat}
    (h : fetchAstDeclaration env fuel st nid = .ok (st', r)) :
    ∃ ext, st'.astSymbols = st.astSymbols ++ ext := by
  unfold fetchAstDeclaration at h
  split at h
  · cases h
  · split at h
    · cases h; exact ⟨[], by simp⟩
    · split at h
      · cases h
      · split at h
        · cases h
        · rename_i st1 hfetch
          cases h
          exact fetchAstSymbol_arena fuel env st _ _ _ none hfetch
        · rename_i st1 idx hfetch
          split at h
          · cases h
          · cases h
            exact fetchAstSymbol_arena fuel env st _ _ _ (some idx) hfetch

theorem notifyReferenced_astSymbols (st : TableState) (g r : Nat) :
    (st.notifyReferenced g r).astSymbols = st.astSymbols := rfl

theorem walkChildTree_arena : ∀ (fuel : Nat) (env : Env) (st : TableState)
    (cmd : WalkCmd) (st' : TableState),
    walkChildTree env fuel st cmd = .ok st' →
    ∃ ext, st'.astSymbols = st.astSymbols ++ ext := by
  intro fuel
  induction fuel using Nat.strong_induction_on with
  | _ fuel ih =>
    intro env st cmd st' h
    match cmd with
    | .nodeList [] gov =>
      rw [walkChildTree] at h
      cases h
      exact ⟨[], by simp⟩
    | .nodeList (c :: rest) gov =>
      match fuel, h with
      | 0, h => rw [walkChildTree] at h; cases h
      | f + 1, h =>
        rw [walkChildTree] at h
        split at h
        · cases h
        · rename_i st1 h1
          obtain ⟨e1, he1⟩ := ih f (by omega) env st (.tree c gov) st1 h1
          obtain ⟨e2, he2⟩ := ih f (by omega) env st1 (.nodeList rest gov) st' h
          exact ⟨e1 ++ e2, by rw [he2, he1, List.append_assoc]⟩
    | .tree nodeId gov =>
      rw [walkChildTree] at h
      split at h
      · cases h
      · rename_i n hn
        split at h
        · cases h; exact ⟨[], by simp⟩
        · dsimp only at h
          split at h
          · cases h
          · rename_i st1 hsw
            have hstep1 : ∃ e1, st1.astSymbols = st.astSymbols ++ e1 := by
              revert hsw
              split
              · split
                · intro hsw; cases hsw
                · intro hsw; cases hsw; exact ⟨[], by simp⟩
                · split
                  · intro hsw; cases hsw
                  · split
                    · intro hsw; cases hsw
                    · split
                      · intro hsw; cases hsw
                      · intro hsw
                        cases hsw
                        rename_i hfetch
                        exact fetchAstSymbol_arena fuel env st _ _ _ none hfetch
                      · rename_i stx ridx hfetch
                        intro hsw
                        cases hsw
                        obtain ⟨e, he⟩ :=
                          fetchAstSymbol_arena fuel env st _ true stx (some ridx) hfetch
                        exact ⟨e, he⟩
              · intro hsw; cases hsw; exact ⟨[], by simp⟩
            obtain ⟨e1, he1⟩ := hstep1
            split at h
            · cases h
            · rename_i st2 newGov hfd
              obtain ⟨e2, he2⟩ := fetchAstDeclaration_arena hfd
              split at h
              · cases h
              · rename_i f
                obtain ⟨e3, he3⟩ :=
                  ih f (by omega) env st2 (.nodeList n.childIds (newGov.getD gov)) st' h
                refine ⟨e1 ++ (e2 ++ e3), ?_⟩
                rw [he3, he2, he1]
                simp [List.append_assoc]

theorem walkRootDeclarations_arena {env : Env} {fuel : Nat} :
    ∀ {ids : List Nat} {st st' : TableState},
    walkRootDeclarations env fuel st ids = .ok st' →
    ∃ ext, st'.astSymbols = st.astSymbols ++ ext := by
  intro ids
  induction ids with
  | nil =>
    intro st st' h
    rw [walkRootDeclarations] at h
    cases h
    exact ⟨[], by simp⟩
  | cons nid rest ih =>
    intro st st' h
    rw [walkRootDeclarations] at h
    split at h
    · cases h
    · rename_i st1 h1
      obtain ⟨e1, he1⟩ := walkChildTree_arena fuel env st (.tree nid nid) st1 h1
      obtain ⟨e2, he2⟩ := ih h
      exact ⟨e1 ++ e2, by rw [he2, he1, List.append_assoc]⟩

theorem arenaPreserved_refl (st : TableState) : arenaPreserved st st := by
  intro i s hs
  exact ⟨s, hs, rfl, fun h => h⟩

theorem arenaPreserved_trans {st1 st2 st3 : TableState}
    (h12 : arenaPreserved st1 st2) (h23 : arenaPreserved st2 st3) :
    arenaPreserved st1 st3 := by
  intro i s hs
  obtain ⟨s2, hs2, hr2, hf2⟩ := h12 i s hs
  obtain ⟨s3, hs3, hr3, hf3⟩ := h23 i s2 hs2
  exact ⟨s3, hs3, by rw [hr3, hr2], fun h => hf3 (hf2 h)⟩

theorem arenaPreserved_of_append {st st' : TableState}
    (h : ∃ ext, st'.astSymbols = st.astSymbols ++ ext) : arenaPreserved st st' := by
  obtain ⟨ext, hext⟩ := h
  intro i s hs
  refine ⟨s, ?_, rfl, fun hf => hf⟩
  unfold TableState.getSymbol at hs ⊢
  rw [hext, list_get?_append_left _ _ _ (list_get?_lt _ _ _ hs)]
  exact hs

theorem notifyAnalyzed_preserved (st : TableState) (i : Nat) :
    arenaPreserved st (st.notifyAnalyzed i) := by
  intro j s hs
  unfold TableState.notifyAnalyzed
  split
  · exact ⟨s, hs, rfl, fun h => h⟩
  · rename_i sy hsy
    by_cases hij : i = j
    · subst hij
      unfold TableState.getSymbol at hs hsy ⊢
      rw [hsy] at hs
      cases hs
      refine ⟨{ s with analyzedFlag := true }, ?_, rfl, fun _ => rfl⟩
      simp only
      exact list_get?_set_self _ _ _ (list_get?_lt _ _ _ hsy)
    · refine ⟨s, ?_, rfl, fun h => h⟩
      unfold TableState.getSymbol at hs ⊢
      simp only
      rw [list_get?_set_ne _ _ _ _ hij]
      exact hs

theorem analyzeExec_preserved : ∀ (fuel : Nat) (env : Env) (st : TableState)
    (cmd : AnalyzeCmd) (st' : TableState),
    analyzeExec env fuel st cmd = .ok st' → arenaPreserved st st' := by
  intro fuel
  induction fuel using Nat.strong_induction_on with
  | _ fuel ih =>
    intro env st cmd st' h
    match cmd with
    | .analyzeSymbol idx =>
      rw [analyzeExec] at h
      split at h
      · cases h
      · rename_i sym hsym
        split at h
        · cases h; exact arenaPreserved_refl _
        · split at h
          · cases h; exact notifyAnalyzed_preserved _ _
          · split at h
            · cases h
            · rename_i rootSym hroot
              split at h
              · cases h
              · rename_i st1 hwalk
                have p1 : arenaPreserved st st1 :=
                  arenaPreserved_of_append (walkRootDeclarations_arena hwalk)
                have p2 : arenaPreserved st1 (st1.notifyAnalyzed sym.rootIdx) :=
                  notifyAnalyzed_preserved _ _
                dsimp only at h
                split at h
                · cases h
                  exact arenaPreserved_trans p1 p2
                · split at h
                  · cases h
                  · rename_i f
                    have p3 := ih f (by omega) env _ _ st' h
                    exact arenaPreserved_trans (arenaPreserved_trans p1 p2) p3
    | .declList [] =>
      rw [analyzeExec] at h
      cases h
      exact arenaPreserved_refl _
    | .declList (nid :: rest) =>
      match fuel, h with
      | 0, h => rw [analyzeExec] at h; cases h
      | f + 1, h =>
        rw [analyzeExec] at h
        split at h
        · cases h
        · rename_i st1 h1
          exact arenaPreserved_trans (ih f (by omega) env st _ st1 h1)
            (ih f (by omega) env st1 _ st' h)
    | .declOne nid =>
      match fuel, h with
      | 0, h => rw [analyzeExec] at h; cases h
      | f + 1, h =>
        rw [analyzeExec] at h
        split at h
        · cases h
        · rename_i d hd
          split at h
          · cases h
          · rename_i st1 h1
            exact arenaPreserved_trans (ih f (by omega) env st _ st1 h1)
              (ih f (by omega) env st1 _ st' h)
    | .refList [] =>
      rw [analyzeExec] at h
      cases h
      exact arenaPreserved_refl _
    | .refList (r :: rest) =>
      match fuel, h with
      | 0, h => rw [analyzeExec] at h; cases h
      | f + 1, h =>
        rw [analyzeExec] at h
        split at h
        · cases h
        · rename_i refSym href
          split at h
          · cases h
          · rename_i st1 h1
            have p1 : arenaPreserved st st1 := by
              revert h1
              split
              · intro h1
                exact ih f (by omega) env st _ st1 h1
              · intro h1
                cases h1
                exact arenaPreserved_refl _
            exact arenaPreserved_trans p1 (ih f (by omega) env st1 _ st' h)

theorem notify_getSymbol_self {st : TableState} {i : Nat} {s : AstSymbolData}
    (hs : st.getSymbol i = some s) :
    (st.notifyAnalyzed i).getSymbol i = some { s with analyzedFlag := true } := by
  unfold TableState.notifyAnalyzed
  rw [hs]
  unfold TableState.getSymbol at hs ⊢
  simp only
  exact list_get?_set_self _ _ _ (list_get?_lt _ _ _ hs)

theorem notifyAnalyzed_idem (st : TableState) (i : Nat) :
    (st.notifyAnalyzed i).notifyAnalyzed i = st.notifyAnalyzed i := by
  cases hs : st.getSymbol i with
  | none =>
    have h1 : st.notifyAnalyzed i = st := by
      unfold TableState.notifyAnalyzed
      rw [hs]
    rw [h1, h1]
  | some s =>
    have h1 : (st.notifyAnalyzed i).getSymbol i = some { s with analyzedFlag := true } :=
      notify_getSymbol_self hs
    conv_lhs => rw [TableState.notifyAnalyzed, h1]
    have h2 : st.notifyAnalyzed i =
        { st with astSymbols := st.astSymbols.set i { s with analyzedFlag := true } } := by
      unfold TableState.notifyAnalyzed
      rw [hs]
    rw [h2] at h1 ⊢
    simp only
    congr 1
    exact list_set_of_get? _ _ _ h1

theorem getSymbol_of_append {st st' : TableState}
    (h : ∃ ext, st'.astSymbols = st.astSymbols ++ ext) {i : Nat} {s : AstSymbolData}
    (hs : st.getSymbol i = some s) : st'.getSymbol i = some s := by
  obtain ⟨ext, hext⟩ := h
  unfold TableState.getSymbol at hs ⊢
  rw [hext, list_get?_append_left _ _ _ (list_get?_lt _ _ _ hs)]
  exact hs

/-- C3: `analyze` is idempotent: once a call to `analyze` has completed on an
`AstSymbol`, running `analyze` again on the same symbol (with any fuel)
returns immediately with the state unchanged: no new `AstDeclaration`s, no
appended references or children, no observable mutation. -/
theorem analyze_idempotent (env : Env) (fuel : Nat) (st : TableState) (idx : Nat)
    (st' : TableState) (h : analyze env fuel st idx = .ok st') :
    ∀ fuel2, analyze env fuel2 st' idx = .ok st' := by
  intro fuel2
  unfold analyze at h ⊢
  rw [analyzeExec] at h
  split at h
  · cases h
  · rename_i sym hsym
    split at h
    · rename_i hAn
      cases h
      rw [analyzeExec]
      rw [hsym]
      simp only [hAn, if_true]
    · rename_i hAn
      split at h
      · rename_i hnom
        cases h
        have h1 := notify_getSymbol_self hsym
        rw [analyzeExec, h1]
        by_cases hAn2 : (st.notifyAnalyzed idx).analyzedOf idx = true
        · simp only [hAn2, if_true]
        · simp only [hAn2, if_false]
          simp only [hnom, if_true]
          rw [notifyAnalyzed_idem]
          simp
      · rename_i hnom
        split at h
        · cases h
        · rename_i rootSym hroot
          split at h
          · cases h
          · rename_i st1 hwalk
            have happ := walkRootDeclarations_arena hwalk
            have hst1root : st1.getSymbol sym.rootIdx = some rootSym :=
              getSymbol_of_append happ hroot
            have hst1sym : st1.getSymbol idx = some sym :=
              getSymbol_of_append happ hsym
            have hst2root := notify_getSymbol_self hst1root
            have hfinal : arenaPreserved (st1.notifyAnalyzed sym.rootIdx) st' := by
              dsimp only at h
              revert h
              split
              · intro h; cases h; exact arenaPreserved_refl _
              · split
                · intro h; cases h
                · rename_i f
                  intro h
                  exact analyzeExec_preserved f env _ _ st' h
            have hentry : ∃ s0 : AstSymbolData,
                (st1.notifyAnalyzed sym.rootIdx).getSymbol idx = some s0
                  ∧ s0.rootIdx = sym.rootIdx := by
              by_cases hri : sym.rootIdx = idx
              · subst hri
                rw [hst1root] at hst1sym
                cases hst1sym
                exact ⟨_, hst2root, rfl⟩
              · refine ⟨sym, ?_, rfl⟩
                unfold TableState.notifyAnalyzed
                rw [hst1root]
                unfold TableState.getSymbol at hst1sym ⊢
                simp only
                rw [list_get?_set_ne _ _ _ _ hri]
                exact hst1sym
            obtain ⟨s0, hs0, hs0root⟩ := hentry
            obtain ⟨symF, hsymF, hrF, _⟩ := hfinal idx s0 hs0
            obtain ⟨r', hr', _, hflmono⟩ := hfinal sym.rootIdx _ hst2root
            have hfl : r'.analyzedFlag = true := hflmono rfl
            have hAnF : st'.analyzedOf idx = true := by
              have h2 : st'.getSymbol symF.rootIdx = some r' := by
                rw [hrF, hs0root]; exact hr'
              simp only [TableState.analyzedOf, hsymF, h2, hfl]
            rw [analyzeExec, hsymF]
            simp only [hAnF, if_true]

/-- Witness for C3: a concrete class symbol is analyzed once (flag set), and a
second call with zero fuel returns immediately with the same state. -/
theorem analyze_idempotent_witness :
    analyze envC3 9 stC3Pre 0 = .ok stC3After
      ∧ analyze envC3 0 stC3After 0 = .ok stC3After :=
  ⟨rfl, analyze_idempotent envC3 9 stC3Pre 0 stC3After rfl 0⟩

/-- C1: evaluation of `tryGetAstSymbol` at a concrete cache miss.  Starting
from the empty table, looking up a perfectly ordinary class symbol that is not
yet cached CONSTRUCTS a new `AstSymbol` and `AstDeclaration` and registers
them in `_astSymbolsBySymbol` and `_astDeclarationsByDeclaration`, instead of
returning absent and leaving the maps unchanged: `_fetchAstSymbol` never
consults its `addIfMissing` parameter (part_001 lines 252-406), contradicting
the doc comment of `tryGetAstSymbol` (part_001 lines 149-152). -/
theorem tryGetAstSymbol_constructs_on_cache_miss :
    tryGetAstSymbol envC1 5 TableState.empty 1 = .ok (stC1After, some 0)
      ∧ TableState.empty.astSymbols.length = 0
      ∧ stC1After.astSymbols.length = 1
      ∧ TableState.empty.astSymbolsBySymbol ≠ stC1After.astSymbolsBySymbol :=
  ⟨rfl, rfl, rfl, by decide⟩

/-- Counterexample for C2: after symbol 3 of `envC2` is resolved from the
empty state (registering followed identity 1 as imported), resolving symbol 2
— which carries no `externalImport` — does NOT throw: the run succeeds and
returns the cached `AstSymbol` with the state unchanged, refuting the claimed
second direction of the consistency check. -/
theorem fetch_without_import_of_imported_symbol_returns :
    fetchAstSymbol envC2 5 TableState.empty 3 true = .ok (stImported, some 0)
      ∧ fetchAstSymbol envC2 5 stImported 2 true = .ok (stImported, some 0) :=
  ⟨rfl, rfl⟩

/-- C2 (amended): the import-status consistency check of `_fetchAstSymbol`
(part_001 lines 393-403) is one-directional: resolving WITH an
`externalImport` a symbol registered as non-imported throws a fatal error,
while resolving WITHOUT an `externalImport` a symbol registered as imported
returns the cached `AstSymbol` without any error. -/
theorem fetchAstSymbol_import_status_check (env : Env) (fuel : Nat)
    (st : TableState) (sid : Nat) (add : Bool) (d : SymbolData) (idx : Nat)
    (sym : AstSymbolData) (hd : env.symbol sid = some d)
    (hfl : (d.flagTypeParameter || d.flagTypeLiteral || d.flagTransient) = false)
    (ham : d.isAmbient = false)
    (hid : assocFind d.followedId st.astSymbolsBySymbol = some idx)
    (hsym : st.getSymbol idx = some sym) :
    (d.astImport.isSome = true → sym.astImport = none →
      fetchAstSymbol env fuel st sid add =
        .error ("Program Bug: The symbol " ++ sym.localName ++
          " is being imported after it was already registered as non-imported"))
    ∧ (d.astImport = none →
        fetchAstSymbol env fuel st sid add = .ok (st, some idx)) := by
  constructor
  · intro himp hnone
    rw [fetchAstSymbol.eq_def, hd]
    simp only [hfl, Bool.false_eq_true, if_false, ham, hid]
    unfold finalImportCheck
    rw [hsym]
    simp [himp, hnone, AstSymbolData.imported]
  · intro hnone
    rw [fetchAstSymbol.eq_def, hd]
    simp only [hfl, Bool.false_eq_true, if_false, ham, hid]
    unfold finalImportCheck
    rw [hsym]
    simp [hnone]

/-- Witness for C2: at followed identity 1, the throwing direction fires on a
symbol registered as non-imported, and the silent direction returns the
cached symbol registered as imported. -/
theorem fetchAstSymbol_import_status_check_witness :
    fetchAstSymbol envC2 5 stNonImported 3 true =
      .error ("Program Bug: The symbol X is being imported after it was already registered as non-imported")
    ∧ fetchAstSymbol envC2 5 stImported 2 true = .ok (stImported, some 0) :=
  ⟨(fetchAstSymbol_import_status_check envC2 5 stNonImported 3 true _ 0 _
      rfl rfl rfl rfl rfl).1 rfl rfl,
   (fetchAstSymbol_import_status_check envC2 5 stImported 2 true _ 0 _
      rfl rfl rfl rfl rfl).2 rfl⟩

/-- C5: `_fetchAstSymbol` discards symbols whose followed symbol carries the
`TypeParameter`, `TypeLiteral` or `Transient` flag, or whose alias-following
reports it as ambient (part_001 lines 256-264): it returns absent with the
state COMPLETELY unchanged, regardless of the `addIfMissing` flag — so
resolving such a symbol any number of times always returns absent and never
creates an `AstSymbol`. -/
theorem fetchAstSymbol_filters_unsupported_and_ambient (env : Env) (fuel : Nat)
    (st : TableState) (sid : Nat) (add : Bool) (d : SymbolData)
    (hd : env.symbol sid = some d)
    (hfilter : (d.flagTypeParameter || d.flagTypeLiteral || d.flagTransient) = true
      ∨ d.isAmbient = true) :
    fetchAstSymbol env fuel st sid add = .ok (st, none) := by
  rw [fetchAstSymbol.eq_def, hd]
  rcases hfilter with h | h
  · simp [h]
  · simp [h]

/-- Witness for C5: the ambient symbol 4 and the type-parameter symbol 5 of
`envC5` resolve to absent with either value of `addIfMissing`, leaving the
empty state untouched. -/
theorem fetchAstSymbol_filters_unsupported_and_ambient_witness :
    fetchAstSymbol envC5 3 TableState.empty 4 true = .ok (TableState.empty, none)
    ∧ fetchAstSymbol envC5 3 TableState.empty 4 false = .ok (TableState.empty, none)
    ∧ fetchAstSymbol envC5 3 TableState.empty 5 true = .ok (TableState.empty, none) :=
  ⟨fetchAstSymbol_filters_unsupported_and_ambient envC5 3 TableState.empty 4 true _
      rfl (Or.inr rfl),
   fetchAstSymbol_filters_unsupported_and_ambient envC5 3 TableState.empty 4 false _
      rfl (Or.inr rfl),
   fetchAstSymbol_filters_unsupported_and_ambient envC5 3 TableState.empty 5 true _
      rfl (Or.inl rfl)⟩

/-- C8: `Excerpt.text` concatenates, in order, the text of the tokens of the
half-open range `[startIndex, endIndex)`; on the full range `[0, tokenCount)`
it reproduces the concatenation of all captured tokens; and the value is
memoized: the first access stores it, and every later access returns the
identical string with the object unchanged. -/
theorem excerpt_text_concatenates_and_caches :
    ∀ (tokens : List ExcerptToken) (range : ExcerptTokenRange),
      (Excerpt.textGet ⟨tokens, range, none⟩).1 =
        String.join (((tokens.drop range.startIndex).take
          (range.endIndex - range.startIndex)).map ExcerptToken.text)
      ∧ (Excerpt.textGet ⟨tokens, ⟨0, tokens.length⟩, none⟩).1 =
          String.join (tokens.map ExcerptToken.text)
      ∧ Excerpt.textGet (Excerpt.textGet ⟨tokens, range, none⟩).2 =
          ((Excerpt.textGet ⟨tokens, range, none⟩).1,
            (Excerpt.textGet ⟨tokens, range, none⟩).2) := by
  intro tokens range
  refine ⟨rfl, ?_, rfl⟩
  simp [Excerpt.textGet, jsSlice]

/-- C9: `ApiMethod.getCanonicalReference` produces exactly the string
`(name:static,overloadIndex)` for static methods and
`(name:instance,overloadIndex)` for instance methods, and the
`canonicalReference` getter is always this function applied to the item's own
`name`, `isStatic` and `overloadIndex`. -/
theorem apiMethod_canonical_reference_format :
    (∀ (n : String) (i : Nat),
        ApiMethod.getCanonicalReference n true i =
          "(" ++ n ++ ":static," ++ toString i ++ ")"
        ∧ ApiMethod.getCanonicalReference n false i =
          "(" ++ n ++ ":instance," ++ toString i ++ ")")
    ∧ ∀ m : ApiMethod, m.canonicalReference =
        ApiMethod.getCanonicalReference m.name m.isStatic m.overloadIndex :=
  ⟨fun _ _ => ⟨rfl, rfl⟩, fun _ => rfl⟩

theorem generateLoop_ok (isAbs : String → Bool) :
    ∀ (paths : List String) (seen : List (List Char)),
    (∀ p ∈ dedupCaseInsensitive seen paths, isAbs p = true) →
    generateLoop isAbs seen paths =
      .ok ((dedupCaseInsensitive seen paths).filter declarationFileExtensionTest) := by
  intro paths
  induction paths with
  | nil => intro seen _; rfl
  | cons p rest ih =>
    intro seen habs
    rw [dedupCaseInsensitive] at habs ⊢
    rw [generateLoop]
    by_cases hseen : seen.contains (toUpperChars p) = true
    · simp only [hseen, if_true]
      simp only [hseen, if_true] at habs
      exact ih seen habs
    · have hseen' : seen.contains (toUpperChars p) = false := by
        cases hb : seen.contains (toUpperChars p)
        · rfl
        · exact absurd hb hseen
      simp only [hseen', Bool.false_eq_true, if_false]
      simp only [hseen', Bool.false_eq_true, if_false] at habs
      have hp : isAbs p = true := habs p (List.mem_cons_self _ _)
      rw [hp]
      simp only [Bool.not_true, Bool.false_eq_true, if_false]
      have hrest := ih (toUpperChars p :: seen)
        (fun q hq => habs q (List.mem_cons_of_mem _ hq))
      by_cases hdts : declarationFileExtensionTest p = true
      · rw [if_pos hdts, hrest, List.filter_cons, hdts]
        simp only [if_true]
      · have hdts' : declarationFileExtensionTest p = false := by
          cases hb : declarationFileExtensionTest p
          · rfl
          · exact absurd hb hdts
        rw [if_neg hdts, hrest, List.filter_cons, hdts']
        simp only [Bool.false_eq_true, if_false]

theorem generateLoop_error (isAbs : String → Bool) :
    ∀ (paths : List String) (seen : List (List Char)),
    (∃ p ∈ dedupCaseInsensitive seen paths, isAbs p = false) →
    ∃ m, generateLoop isAbs seen paths = .error m := by
  intro paths
  induction paths with
  | nil =>
    intro seen h
    obtain ⟨p, hp, _⟩ := h
    cases hp
  | cons p rest ih =>
    intro seen h
    rw [dedupCaseInsensitive] at h
    rw [generateLoop]
    by_cases hseen : seen.contains (toUpperChars p) = true
    · simp only [hseen, if_true]
      simp only [hseen, if_true] at h
      exact ih seen h
    · have hseen' : seen.contains (toUpperChars p) = false := by
        cases hb : seen.contains (toUpperChars p)
        · rfl
        · exact absurd hb hseen
      simp only [hseen', Bool.false_eq_true, if_false]
      simp only [hseen', Bool.false_eq_true, if_false] at h
      by_cases hp : isAbs p = true
      · rw [hp]
        simp only [Bool.not_true, Bool.false_eq_true, if_false]
        have h' : ∃ q ∈ dedupCaseInsensitive (toUpperChars p :: seen) rest,
            isAbs q = false := by
          obtain ⟨q, hq, hqa⟩ := h
          cases hq with
          | head => rw [hp] at hqa; cases hqa
          | tail _ hq' => exact ⟨q, hq', hqa⟩
        obtain ⟨m, hm⟩ := ih (toUpperChars p :: seen) h'
        by_cases hdts : declarationFileExtensionTest p = true
        · rw [if_pos hdts, hm]
          exact ⟨m, rfl⟩
        · rw [if_neg hdts, hm]
          exact ⟨m, rfl⟩
      · have hp' : isAbs p = false := by
          cases hb : isAbs p
          · rfl
          · exact absurd hb hp
        rw [hp']
        exact ⟨_, rfl⟩

/-- C10: `generateFilePathsForAnalysis` keeps exactly the input paths matching
the case-insensitive `.d.ts` test, in first-occurrence order, after removing
duplicates by uppercased comparison; and it throws whenever some path, at its
first case-insensitive occurrence, fails the (abstracted) `path.isAbsolute`
test — even when that path is not a declaration file. -/
theorem generateFilePathsForAnalysis_spec (isAbs : String → Bool)
    (paths : List String) :
    ((∀ p ∈ dedupCaseInsensitive [] paths, isAbs p = true) →
      generateFilePathsForAnalysis isAbs paths =
        .ok ((dedupCaseInsensitive [] paths).filter declarationFileExtensionTest))
    ∧ ((∃ p ∈ dedupCaseInsensitive [] paths, isAbs p = false) →
        ∃ m, generateFilePathsForAnalysis isAbs paths = .error m) :=
  ⟨fun h => generateLoop_ok isAbs paths [] h,
   fun h => generateLoop_error isAbs paths [] h⟩

/-- Witness for C10: of three absolute paths where the second differs from the
first only by letter case, exactly the one declaration file is kept; and a
list containing a relative path (at its first occurrence, and not a
declaration file) throws. -/
theorem generateFilePathsForAnalysis_spec_witness :
    generateFilePathsForAnalysis isAbsSlash ["/a/x.d.ts", "/A/X.D.TS", "/b/y.ts"] =
      .ok ["/a/x.d.ts"]
    ∧ ∃ m, generateFilePathsForAnalysis isAbsSlash ["/a/x.ts", "relative/y.ts"] =
        .error m :=
  ⟨(generateFilePathsForAnalysis_spec isAbsSlash
      ["/a/x.d.ts", "/A/X.D.TS", "/b/y.ts"]).1 (by decide),
   (generateFilePathsForAnalysis_spec isAbsSlash
      ["/a/x.ts", "relative/y.ts"]).2 ⟨"relative/y.ts", by decide, by decide⟩⟩

theorem counters_applyAll_append (c : Counters) (l1 l2 : List LogEvent) :
    c.applyAll (l1 ++ l2) = (c.applyAll l1).applyAll l2 := by
  unfold Counters.applyAll
  exact List.foldl_append _ _ _ _

/-- C7: the boolean result of `processProject` is determined solely by the
diagnostic counters accumulated during that invocation: the counters are
reset at the start (the result is independent of the prior counter state and
equals the fold of the run's own diagnostic events over zeroed counters), and
a `localBuild=true` run returns true iff the error count is zero while any
other run returns true iff both the error and the warning counts are zero. -/
theorem processProject_result_from_counters (c0 c0' : Counters)
    (localBuild configNormalized : Bool) (entry : String)
    (apiJsonEnabled : Bool) (c : DtsRollupConfig)
    (analysisEvents generatorEvents : List LogEvent) :
    processProject c0 localBuild configNormalized entry apiJsonEnabled c
        analysisEvents generatorEvents
      = processProject c0' localBuild configNormalized entry apiJsonEnabled c
        analysisEvents generatorEvents
    ∧ (∀ (cf : Counters) (b : Bool),
        processProject c0 localBuild configNormalized entry apiJsonEnabled c
            analysisEvents generatorEvents = .ok (cf, b) →
        cf = Counters.reset.applyAll
            (processProjectEvents apiJsonEnabled c analysisEvents generatorEvents)
          ∧ b = (if localBuild then cf.errorCount == 0
              else cf.errorCount + cf.warningCount == 0)) := by
  constructor
  · rfl
  · intro cf b h
    unfold processProject at h
    split at h
    · cases h
    · split at h
      · cases h
      · dsimp only at h
        have hev : Counters.reset.applyAll
              (processProjectEvents apiJsonEnabled c analysisEvents generatorEvents)
            = (if apiJsonEnabled = true
                then (Counters.reset.applyAll analysisEvents).apply .logVerbose
                else Counters.reset.applyAll analysisEvents).applyAll
                (generateRollupEvents c generatorEvents) := by
          unfold processProjectEvents
          rw [counters_applyAll_append, counters_applyAll_append]
          by_cases ha : apiJsonEnabled = true
          · rw [if_pos ha, if_pos ha]; rfl
          · rw [if_neg ha, if_neg ha]; rfl
        cases localBuild
        · simp only [Bool.false_eq_true, if_false] at h
          cases h
          exact ⟨hev.symm, by simp⟩
        · simp only [if_true] at h
          cases h
          exact ⟨hev.symm, by simp⟩

/-- Witness for C7: with stale counters (7 errors, 9 warnings) from a previous
run, a non-local run that accumulates exactly one warning returns false, with
final counters (0, 1) matching the reset-then-accumulate formula. -/
theorem processProject_result_from_counters_witness :
    processProject ⟨7, 9⟩ false true "lib/index.d.ts" true rollupOff
        [LogEvent.logWarning] [] = .ok (⟨0, 1⟩, false)
    ∧ (⟨0, 1⟩ : Counters) = Counters.reset.applyAll
        (processProjectEvents true rollupOff [LogEvent.logWarning] [])
    ∧ false = (if false then ((⟨0, 1⟩ : Counters).errorCount == 0)
        else ((⟨0, 1⟩ : Counters).errorCount + (⟨0, 1⟩ : Counters).warningCount == 0)) := by
  have h := (processProject_result_from_counters ⟨7, 9⟩ ⟨0, 0⟩ false true
    "lib/index.d.ts" true rollupOff [LogEvent.logWarning] []).2 ⟨0, 1⟩ false rfl
  exact ⟨rfl, h.1, h.2⟩

theorem checkDeclarationKinds_error (env : Env) (name : String) :
    ∀ (ids : List Nat),
    (∀ nid ∈ ids, ∃ n, env.node nid = some n) →
    (∃ nid ∈ ids, ∃ n, env.node nid = some n ∧ isAstDeclarationKind n.kind = false) →
    ∃ m, checkDeclarationKinds env name ids = .error m := by
  intro ids
  induction ids with
  | nil =>
    intro _ hbad
    obtain ⟨nid, hnid, _⟩ := hbad
    cases hnid
  | cons nid rest ih =>
    intro hall hbad
    obtain ⟨n, hn⟩ := hall nid (List.mem_cons_self _ _)
    rw [checkDeclarationKinds, hn]
    by_cases hk : isAstDeclarationKind n.kind = true
    · simp only [hk, if_true]
      refine ih (fun q hq => hall q (List.mem_cons_of_mem _ hq)) ?_
      obtain ⟨q, hq, n', hn', hk'⟩ := hbad
      cases hq with
      | head =>
        rw [hn] at hn'
        cases hn'
        rw [hk] at hk'
        cases hk'
      | tail _ hq' => exact ⟨q, hq', n', hn', hk'⟩
    · have hk' : isAstDeclarationKind n.kind = false := by
        cases hb : isAstDeclarationKind n.kind
        · rfl
        · exact absurd hb hk
      simp only [hk', Bool.false_eq_true, if_false]
      exact ⟨_, rfl⟩

/-- C6: when `_fetchAstSymbol` constructs a new `AstSymbol` (all cache lookups
missed), the stored `nominal` flag is true exactly when the followed symbol
has a single declaration that is a whole source file, or its first
declaration's source file comes from an external library without AEDoc
support; and when that condition is false, any underlying declaration whose
kind is not graph-relevant makes the call throw a fatal internal error
instead of producing a user diagnostic. -/
theorem fetchAstSymbol_nominal_and_kind_check (env : Env) (fuel : Nat)
    (st : TableState) (sid : Nat) (add : Bool) (d : SymbolData)
    (firstDeclId : Nat) (restIds : List Nat) (firstNode : NodeData)
    (hd : env.symbol sid = some d)
    (hfl : (d.flagTypeParameter || d.flagTypeLiteral || d.flagTransient) = false)
    (ham : d.isAmbient = false)
    (hid : assocFind d.followedId st.astSymbolsBySymbol = none)
    (hdecl : d.declNodeIds = firstDeclId :: restIds)
    (hkey : importKeyLookup st d.astImport = none)
    (hfn : env.node firstDeclId = some firstNode) :
    (∀ (st' : TableState) (i : Nat),
        fetchAstSymbol env fuel st sid add = .ok (st', some i) →
        ∃ s, st'.getSymbol i = some s
          ∧ s.nominal = ((d.declNodeIds.length == 1
                && firstNode.kind == SynKind.sourceFile)
              || (firstNode.fromExternalLibrary && !firstNode.aedocSupported)))
    ∧ (((d.declNodeIds.length == 1 && firstNode.kind == SynKind.sourceFile)
          || (firstNode.fromExternalLibrary && !firstNode.aedocSupported)) = false →
        (∀ nid ∈ d.declNodeIds, ∃ n, env.node nid = some n) →
        (∃ nid ∈ d.declNodeIds, ∃ n, env.node nid = some n
          ∧ isAstDeclarationKind n.kind = false) →
        ∃ msg, fetchAstSymbol env fuel st sid add = .error msg) := by
  constructor
  · intro st' i h
    rw [fetchAstSymbol.eq_def, hd] at h
    simp only [hfl, Bool.false_eq_true, if_false, ham, hid, hdecl, hkey, hfn,
      List.length_cons] at h
    rw [hdecl]
    simp only [List.length_cons]
    by_cases hn : (((restIds.length + 1 : Nat) == 1
        && firstNode.kind == SynKind.sourceFile)
        || (firstNode.fromExternalLibrary && !firstNode.aedocSupported)) = true
    · rw [if_pos hn] at h
      rw [hn]
      obtain ⟨sym, hsyms, hr, hnom⟩ := constructAstSymbol_ok h
      cases hr
      refine ⟨sym, ?_, hnom⟩
      unfold TableState.getSymbol
      rw [hsyms]
      exact list_get?_concat_self _ _ _
    · rw [if_neg hn] at h
      have hn' : (((restIds.length + 1 : Nat) == 1
          && firstNode.kind == SynKind.sourceFile)
          || (firstNode.fromExternalLibrary && !firstNode.aedocSupported)) = false := by
        cases hb : (((restIds.length + 1 : Nat) == 1
            && firstNode.kind == SynKind.sourceFile)
            || (firstNode.fromExternalLibrary && !firstNode.aedocSupported))
        · rfl
        · exact absurd hb hn
      rw [hn']
      split at h
      · cases h
      · split at h
        · cases h
        · obtain ⟨sym, hsyms, hr, hnom⟩ := constructAstSymbol_ok h
          cases hr
          refine ⟨sym, ?_, hnom⟩
          unfold TableState.getSymbol
          rw [hsyms]
          exact list_get?_concat_self _ _ _
        · split at h
          · cases h
          · split at h
            · cases h
            · split at h
              · cases h
              · split at h
                · cases h
                · cases h
                · rename_i st1 pIdx hrec
                  obtain ⟨sym, hsyms, hr, hnom⟩ := constructAstSymbol_ok h
                  cases hr
                  refine ⟨sym, ?_, hnom⟩
                  unfold TableState.getSymbol
                  rw [hsyms]
                  exact list_get?_concat_self _ _ _
  · intro hnom hall hbad
    obtain ⟨m, hm⟩ := checkDeclarationKinds_error env d.followedName d.declNodeIds hall hbad
    refine ⟨m, ?_⟩
    rw [fetchAstSymbol.eq_def, hd]
    simp only [hfl, Bool.false_eq_true, if_false, ham, hid, hdecl, hkey, hfn,
      List.length_cons]
    have hnom' : (((restIds.length + 1 : Nat) == 1
        && firstNode.kind == SynKind.sourceFile)
        || (firstNode.fromExternalLibrary && !firstNode.aedocSupported)) = false := by
      rw [hdecl] at hnom
      simpa using hnom
    rw [if_neg (by rw [hnom']; exact Bool.false_ne_true)]
    rw [hdecl] at hm
    rw [hm]

/-- Witness for C6: the module symbol 8 of `envC6` (single source-file
declaration) is constructed nominal; the symbol 9, neither nominal nor made of
graph-relevant declarations, makes `_fetchAstSymbol` throw. -/
theorem fetchAstSymbol_nominal_and_kind_check_witness :
    (∃ s : AstSymbolData,
      TableState.getSymbol
        ⟨[⟨"M", 8, none, none, 0, true, false, [30]⟩], [(8, 0)], [],
          [(30, ⟨0, none, [], []⟩)]⟩ 0 = some s ∧ s.nominal = true)
    ∧ ∃ msg, fetchAstSymbol envC6 5 TableState.empty 9 true = .error msg := by
  constructor
  · exact (fetchAstSymbol_nominal_and_kind_check envC6 5 TableState.empty 8 true _ 30 [] _
      rfl rfl rfl rfl rfl rfl rfl).1 _ 0 rfl
  · refine (fetchAstSymbol_nominal_and_kind_check envC6 5 TableState.empty 9 true _ 31 [] _
      rfl rfl rfl rfl rfl rfl rfl).2 rfl ?_ ?_
    · intro nid hn
      cases hn with
      | head => exact ⟨_, rfl⟩
      | tail _ h => cases h
    · exact ⟨31, List.mem_cons_self _ _, _, rfl, rfl⟩

theorem astDeclarationKind_ne_sourceFile {k : SynKind}
    (h : isAstDeclarationKind k = true) : (k == SynKind.sourceFile) = false := by
  cases k <;> simp_all [isAstDeclarationKind]

/-- C4: import-origin deduplication.  From a state in which neither followed
identity nor the shared import key is cached, resolving the first symbol
constructs one `AstSymbol` (arena index = current length); resolving a second,
distinct symbol that carries the same `(packageName, exportedName)` key then
returns the IDENTICAL `AstSymbol` (same index) through the import-key map and
memoizes it under the second followed identity; a further resolution of the
second symbol hits the identity map directly, leaving the state completely
unchanged. -/
theorem fetchAstSymbol_import_origin_dedup (env : Env) (fuel1 fuel2 fuel3 : Nat)
    (st : TableState) (sid1 sid2 : Nat) (d1 d2 : SymbolData) (imp : AstImport)
    (a b : Nat) (bs : List Nat) (na : NodeData)
    (h1 : env.symbol sid1 = some d1) (h2 : env.symbol sid2 = some d2)
    (h3 : d1.astImport = some imp) (h4 : d2.astImport = some imp)
    (hfl1 : (d1.flagTypeParameter || d1.flagTypeLiteral || d1.flagTransient) = false)
    (hfl2 : (d2.flagTypeParameter || d2.flagTypeLiteral || d2.flagTransient) = false)
    (ham1 : d1.isAmbient = false) (ham2 : d2.isAmbient = false)
    (hid1 : assocFind d1.followedId st.astSymbolsBySymbol = none)
    (hid2 : assocFind d2.followedId st.astSymbolsBySymbol = none)
    (hne : d1.followedId ≠ d2.followedId)
    (hkey : assocFind imp.key st.astSymbolsByImportKey = none)
    (hd1 : d1.declNodeIds = [a]) (hd2 : d2.declNodeIds = b :: bs)
    (hna : env.node a = some na)
    (hkind : isAstDeclarationKind na.kind = true)
    (hext : na.fromExternalLibrary = false)
    (hpar : na.parentId = none) :
    ∃ st1 : TableState,
      fetchAstSymbol env fuel1 st sid1 true = .ok (st1, some st.astSymbols.length)
      ∧ fetchAstSymbol env fuel2 st1 sid2 true =
          .ok ({ st1 with astSymbolsBySymbol :=
            (d2.followedId, st.astSymbols.length) :: st1.astSymbolsBySymbol },
            some st.astSymbols.length)
      ∧ fetchAstSymbol env fuel3
          { st1 with astSymbolsBySymbol :=
            (d2.followedId, st.astSymbols.length) :: st1.astSymbolsBySymbol } sid2 true =
          .ok ({ st1 with astSymbolsBySymbol :=
            (d2.followedId, st.astSymbols.length) :: st1.astSymbolsBySymbol },
            some st.astSymbols.length) := by
  have hnsf := astDeclarationKind_ne_sourceFile hkind
  refine ⟨⟨st.astSymbols ++ [⟨d1.localName, d1.followedId, some imp, none,
      st.astSymbols.length, false, false, [a]⟩],
    (d1.followedId, st.astSymbols.length) :: st.astSymbolsBySymbol,
    (imp.key, st.astSymbols.length) :: st.astSymbolsByImportKey,
    (a, ⟨st.astSymbols.length, none, [], []⟩) :: st.astDeclarationsByDeclaration⟩,
    ?_, ?_, ?_⟩
  · rw [fetchAstSymbol.eq_def, h1]
    simp only [hfl1, Bool.false_eq_true, if_false, ham1, hid1, hd1,
      importKeyLookup, h3, hkey, hna, List.length_cons, List.length_nil,
      beq_self_eq_true, Bool.true_and, hnsf, hext, Bool.false_and, Bool.or_false,
      Bool.false_or]
    simp only [constructAstSymbol, resolveRootIdx, importKeyRegister, h3, hd1,
      wireDeclarations, Option.isSome, Bool.false_eq_true, if_false,
      finalImportCheck, TableState.getSymbol, list_get?_concat_self,
      AstSymbolData.imported, Bool.not_true, Bool.and_false]
    simp only [checkDeclarationKinds, hna, hkind, if_true,
      tryFindFirstAstDeclarationParent, hpar, tryFindParentLoop]
  · rw [fetchAstSymbol.eq_def, h2]
    simp only [hfl2, Bool.false_eq_true, if_false, ham2, hd2]
    simp only [assocFind, if_neg hne, hid2, importKeyLookup, h4,
      eq_self_iff_true, if_true]
    simp only [finalImportCheck, TableState.getSymbol, list_get?_concat_self, h4,
      AstSymbolData.imported, Option.isSome, Bool.not_true, Bool.and_false,
      Bool.false_eq_true, if_false]
  · rw [fetchAstSymbol.eq_def, h2]
    simp only [hfl2, Bool.false_eq_true, if_false, ham2]
    simp only [assocFind, eq_self_iff_true, if_true]
    simp only [finalImportCheck, TableState.getSymbol, list_get?_concat_self, h4,
      AstSymbolData.imported, Option.isSome, Bool.not_true, Bool.and_false,
      Bool.false_eq_true, if_false]

/-- Witness for C4: the two distinct symbols 6 and 7 of `envC4`, sharing
the import origin `impX`, resolve to the same arena index 0; the second
resolution memoizes index 0 under followed identity 7, and a repeat
resolution leaves the state unchanged. -/
theorem fetchAstSymbol_import_origin_dedup_witness :
    ∃ st1 : TableState,
      fetchAstSymbol envC4 5 TableState.empty 6 true = .ok (st1, some 0)
      ∧ fetchAstSymbol envC4 5 st1 7 true =
          .ok ({ st1 with astSymbolsBySymbol := (7, 0) :: st1.astSymbolsBySymbol },
            some 0)
      ∧ fetchAstSymbol envC4 5
          { st1 with astSymbolsBySymbol := (7, 0) :: st1.astSymbolsBySymbol } 7 true =
          .ok ({ st1 with astSymbolsBySymbol := (7, 0) :: st1.astSymbolsBySymbol },
            some 0) :=
  fetchAstSymbol_import_origin_dedup envC4 5 5 5 TableState.empty 6 7 _ _ impX 20 21 [] _
    rfl rfl rfl rfl rfl rfl rfl rfl rfl rfl (by decide) rfl rfl rfl rfl rfl rfl rfl
